import Mathlib

/-!
Shallow embedding of `src/Rochester_db_gen.py`, a sequential ETL pipeline:

* `get_pmids`            — paginated identifier discovery (esearch);
* `parse_articles`       — XML field extraction and per-record insertion (efetch/parse);
* `insert_article`       — idempotent store insertion (INSERT OR IGNORE);
* the `__main__` loop    — chunking of the identifier list into batches of 200.

The remote search endpoint is passed in as a function from the `retstart`
offset to the JSON body of the response (the script obtains it via
`requests.get` + `r.json()`); the while-loop is given explicit fuel, and a
result type distinguishes normal return, an uncaught Python exception, and
running out of fuel (non-termination of the loop).
-/
namespace RochesterDbGen

/-- Outcome of running a piece of the script: normal value, an uncaught
Python exception propagating out, or fuel exhaustion (the loop not
terminating within the given fuel). -/
inductive RunResult (α : Type) : Type where
  | ok (a : α) : RunResult α
  | exn : RunResult α
  | fuelOut : RunResult α
deriving Repr, DecidableEq

/-- The `esearchresult` object of an esearch JSON body: both the `idlist`
and the `count` member may be missing.  `count = none` also models a
`count` value that `int(...)` cannot parse (both raise in the script). -/
structure ESearchResult : Type where
  idlist : Option (List String)
  count : Option Int
deriving Repr, DecidableEq

/-- An esearch JSON body; the `esearchresult` member may be missing. -/
structure ESearchBody : Type where
  esearchresult : Option ESearchResult
deriving Repr, DecidableEq

/-- Model of `data.get("esearchresult", {}).get("idlist", [])`. -/
def bodyIds (data : ESearchBody) : List String :=
  match data.esearchresult with
  | none => []
  | some res => res.idlist.getD []

/-- The while-loop of `get_pmids`, with the remote endpoint abstracted as
`server : Nat → ESearchBody` (offset ↦ decoded JSON body) and the page size
`retmax` a parameter (the script fixes it to 200).  Returns the final
`pmids` list together with the number of page requests issued.  Fuel bounds
the number of iterations; each iteration issues exactly one request. -/
def get_pmids_loop (server : Nat → ESearchBody) (retmax : Nat) :
    Nat → Nat → List String → Nat → RunResult (List String) × Nat
  | 0, _, _, calls => (RunResult.fuelOut, calls)
  | fuel + 1, retstart, pmids, calls =>
    let data := server retstart
    let ids := bodyIds data
    let calls' := calls + 1
    if ids = [] then (RunResult.ok pmids, calls')
    else
      let pmids' := pmids ++ ids
      let retstart' := retstart + retmax
      match data.esearchresult with
      | none => (RunResult.exn, calls')
      | some res =>
        match res.count with
        | none => (RunResult.exn, calls')
        | some cnt =>
          if (retstart' : Int) ≥ cnt then (RunResult.ok pmids', calls')
          else get_pmids_loop server retmax fuel retstart' pmids' calls'

/-- `get_pmids()` of the script: page size 200, starting at offset 0 with an
empty accumulator. -/
def get_pmids (server : Nat → ESearchBody) (fuel : Nat) :
    RunResult (List String) × Nat :=
  get_pmids_loop server 200 fuel 0 [] 0

/-- A well-behaved simulated search endpoint holding the identifier list
`L`: the page at offset `retstart` is the next `retmax` identifiers of `L`,
and the reported total count is the length of `L`. -/
def simServer (L : List String) (retmax : Nat) : Nat → ESearchBody :=
  fun retstart =>
    { esearchresult :=
        some { idlist := some ((L.drop retstart).take retmax)
               count := some (L.length : Int) } }

/-- A concrete pool of distinct identifiers for instantiating the pagination
theorems. -/
def sampleIds (n : Nat) : List String :=
  (List.range n).map (fun k => toString k)

/-- A search endpoint whose body has a non-empty identifier list but no
usable `count` member. -/
def noCountServer : Nat → ESearchBody :=
  fun _ => { esearchresult := some { idlist := some ["1"], count := none } }

/-! XML model.  An `Element` mirrors an `xml.etree.ElementTree` element:
a tag, an attribute list, optional text, and a list of child elements.
The path queries used by the script are embedded directly:
`findall(".//T")` walks the proper descendants in document (preorder)
order and keeps those tagged `T`; `findall(".//A/B")` additionally steps to
`B`-tagged children, and `findtext` takes the first match's text (an
element found with no text yields the empty string, per ElementTree). -/
mutual
inductive Element : Type where
  | mk (tag : String) (attribs : List (String × String)) (text : Option String)
      (children : ElementForest)
deriving Repr, DecidableEq
inductive ElementForest : Type where
  | nil : ElementForest
  | cons (e : Element) (rest : ElementForest) : ElementForest
deriving Repr, DecidableEq
end

def Element.tag : Element → String
  | Element.mk t _ _ _ => t

def Element.attribs : Element → List (String × String)
  | Element.mk _ a _ _ => a

def Element.text : Element → Option String
  | Element.mk _ _ x _ => x

def Element.children : Element → ElementForest
  | Element.mk _ _ _ c => c

def ElementForest.toList : ElementForest → List Element
  | ElementForest.nil => []
  | ElementForest.cons e rest => e :: rest.toList

def forestOfList : List Element → ElementForest
  | [] => ElementForest.nil
  | e :: rest => ElementForest.cons e (forestOfList rest)

/-- An element built from a plain list of children. -/
def mkEl (t : String) (a : List (String × String)) (x : Option String)
    (c : List Element) : Element :=
  Element.mk t a x (forestOfList c)

/-- All elements of the forest in preorder, each followed by its own
descendants. -/
def descendantsForest : ElementForest → List Element
  | ElementForest.nil => []
  | ElementForest.cons (Element.mk t a x c) rest =>
      Element.mk t a x c :: (descendantsForest c ++ descendantsForest rest)

/-- Proper descendants of an element in document (preorder) order. -/
def Element.descendants (e : Element) : List Element :=
  descendantsForest e.children

/-- Children of `e` whose tag is `t` (one relative child step of a path). -/
def childTag (e : Element) (t : String) : List Element :=
  e.children.toList.filter (fun x => x.tag = t)

/-- Model of `findall(".//t")`: proper descendants tagged `t`. -/
def findallDescTag (e : Element) (t : String) : List Element :=
  e.descendants.filter (fun x => x.tag = t)

/-- Model of `findall(".//t1/t2")`. -/
def findallPath2 (e : Element) (t1 t2 : String) : List Element :=
  (e.descendants.filter (fun x => x.tag = t1)).flatMap (fun a => childTag a t2)

/-- Model of `findall(".//t1/t2/t3")`. -/
def findallPath3 (e : Element) (t1 t2 t3 : String) : List Element :=
  ((e.descendants.filter (fun x => x.tag = t1)).flatMap
      (fun a => childTag a t2)).flatMap (fun b => childTag b t3)

/-- Model of `findtext`: the first found element's text (empty string when
the element has no text), or the given default when nothing matches. -/
def firstText (elems : List Element) (d : Option String) : Option String :=
  match elems with
  | [] => d
  | e :: _ => some (e.text.getD "")

/-- Model of `author.findtext("tag")` (relative child path, default None). -/
def childFindtext (e : Element) (t : String) : Option String :=
  firstText (childTag e t) none

/-- Model of `el.attrib.get(k)`. -/
def attrGet (e : Element) (k : String) : Option String :=
  (e.attribs.find? (fun p => p.1 = k)).map (fun p => p.2)

/-! Field extraction, one definition per field of the loop body of
`parse_articles` (lines 101-134 of the script). -/
def extract_pmid (article : Element) : Option String :=
  firstText (findallDescTag article "PMID") none

def extract_journal (article : Element) : String :=
  (firstText (findallPath2 article "Journal" "Title") (some "")).getD ""

def extract_journal_abbr (article : Element) : String :=
  (firstText (findallPath2 article "Journal" "ISOAbbreviation") (some "")).getD ""

def extract_issn (article : Element) : String :=
  (firstText (findallPath2 article "Journal" "ISSN") (some "")).getD ""

def extract_pub_year (article : Element) : String :=
  (firstText (findallPath3 article "JournalIssue" "PubDate" "Year") none).getD ""

def extract_pub_date (article : Element) : String :=
  (firstText (findallPath2 article "PubDate" "MedlineDate") none).getD ""

def extract_volume (article : Element) : String :=
  (firstText (findallPath2 article "JournalIssue" "Volume") none).getD ""

def extract_issue (article : Element) : String :=
  (firstText (findallPath2 article "JournalIssue" "Issue") none).getD ""

def extract_pages (article : Element) : String :=
  (firstText (findallPath2 article "Pagination" "MedlinePgn") none).getD ""

/-- One step of the doi for-loop: a doi-typed entry overwrites the running
value with its text (which may be absent, i.e. Python None). -/
def doiStep (d : Option String) (el : Element) : Option String :=
  if attrGet el "IdType" = some "doi" then el.text else d

def extract_doi (article : Element) : Option String :=
  (findallDescTag article "ArticleId").foldl doiStep (some "")

def extract_title (article : Element) : String :=
  (firstText (findallDescTag article "ArticleTitle") (some "")).getD ""

def extract_abstract (article : Element) : String :=
  String.intercalate " "
    (((findallPath2 article "Abstract" "AbstractText").filterMap
        Element.text).filter (fun s => ¬ s = ""))

/-- Python `" ".join(filter(None, [forename, lastname]))`: absent (None) and
empty parts are dropped before joining with a single space. -/
def authorName (author : Element) : String :=
  String.intercalate " "
    (([childFindtext author "ForeName", childFindtext author "LastName"].filterMap
        id).filter (fun s => ¬ s = ""))

/-- The author accumulation loop: names in source order, empty names
skipped. -/
def extract_authors (article : Element) : List String :=
  ((findallDescTag article "Author").map authorName).filter (fun n => ¬ n = "")

/-- One row of the `pubmed_articles` table.  `pmid` and `doi` are the two
fields that can be Python `None` in the script (`findtext` with no default,
and `el.text` of a doi entry); the rest always hold strings. -/
structure Row : Type where
  pmid : Option String
  publication_year : String
  publication_date : String
  first_author : String
  all_authors : String
  title : String
  issn : String
  doi : Option String
  pages : String
  issue : String
  volume : String
  journal : String
  journal_abbreviation : String
  abstract : String
deriving Repr, DecidableEq

/-- The per-article body of `parse_articles`, producing the tuple passed to
`insert_article`. -/
def parseArticle (article : Element) : Row :=
  { pmid := extract_pmid article
    publication_year := extract_pub_year article
    publication_date := extract_pub_date article
    first_author := (extract_authors article).headD ""
    all_authors := String.intercalate ", " (extract_authors article)
    title := extract_title article
    issn := extract_issn article
    doi := extract_doi article
    pages := extract_pages article
    issue := extract_issue article
    volume := extract_volume article
    journal := extract_journal article
    journal_abbreviation := extract_journal_abbr article
    abstract := extract_abstract article }

/-- Model of `insert_article` with `INSERT OR IGNORE` on the primary key
`pmid` (the store contract of the spec: insert-if-absent, auto-commit per
record): a row whose pmid is already present leaves the store unchanged. -/
def insert_article (store : List Row) (data : Row) : List Row :=
  if ∃ row ∈ store, row.pmid = data.pmid then store else store ++ [data]

/-- Model of `parse_articles`: every `PubmedArticle` element of the parsed
blob, in document order, is extracted and inserted. -/
def parse_articles (root : Element) (store : List Row) : List Row :=
  (findallDescTag root "PubmedArticle").foldl
    (fun s article => insert_article s (parseArticle article)) store

/-- The batch loop of `__main__`: each fetched batch parses into one XML
root, processed in order against the shared store. -/
def run_pipeline (batches : List Element) (store : List Row) : List Row :=
  batches.foldl (fun s root => parse_articles root s) store

/-- Model of Python `range(0, stop, step)` for `step > 0`. -/
def pyRange (stop step : Nat) : List Nat :=
  (List.range ((stop + step - 1) / step)).map (fun k => k * step)

/-- The batch slicing of `__main__`:
`for i in range(0, len(pmids), 200): pmids[i:i+200]`. -/
def mainBatches (pmids : List String) : List (List String) :=
  (pyRange pmids.length 200).map (fun i => (pmids.drop i).take 200)

/-- Recursive chunking into pieces of 200, used as a bridge to reason about
`mainBatches`. -/
def chunks200 : List String → List (List String)
  | [] => []
  | a :: l => ((a :: l).take 200) :: chunks200 ((a :: l).drop 200)
termination_by l => l.length
decreasing_by simp [List.length_drop]; omega

/-- All rows produced by a run over the given parsed batch roots, in load
order. -/
def batchRows (batches : List Element) : List Row :=
  batches.flatMap
    (fun root => (findallDescTag root "PubmedArticle").map parseArticle)

/-- A row whose non-key fields are all empty, for concrete instances. -/
def sampleRow (p : Option String) : Row :=
  { pmid := p, publication_year := "", publication_date := "",
    first_author := "", all_authors := "", title := "", issn := "",
    doi := some "", pages := "", issue := "", volume := "", journal := "",
    journal_abbreviation := "", abstract := "" }

/-- A record element carrying none of the optional nodes. -/
def emptyArticle : Element :=
  mkEl "PubmedArticle" [] none []

/-- The name-joining rule of the script, written on an optional (forename,
lastname) pair: drop absent and empty parts, join the rest with one
space. -/
def joinName (p : Option String × Option String) : String :=
  String.intercalate " " (([p.1, p.2].filterMap id).filter (fun s => ¬ s = ""))

/-- An Author element with optional ForeName and LastName child nodes
(absent component = absent node; `some s` = node with text `s`). -/
def mkAuthor (p : Option String × Option String) : Element :=
  mkEl "Author" [] none
    ((match p.1 with
      | none => []
      | some f => [mkEl "ForeName" [] (some f) []]) ++
     (match p.2 with
      | none => []
      | some l => [mkEl "LastName" [] (some l) []]))

/-- A record element whose Author entries are exactly the given pairs, in
order. -/
def mkAuthorArticle (parts : List (Option String × Option String)) : Element :=
  mkEl "PubmedArticle" [] none (parts.map mkAuthor)

/-- An ArticleId element with an optional IdType attribute value and
optional text. -/
def mkArticleId (q : Option String × Option String) : Element :=
  mkEl "ArticleId"
    (match q.1 with
     | none => []
     | some v => [("IdType", v)]) q.2 []

/-- A record element whose ArticleId entries are exactly the given pairs,
in order. -/
def mkIdArticle (entries : List (Option String × Option String)) : Element :=
  mkEl "PubmedArticle" [] none (entries.map mkArticleId)

/-- The last doi-typed entry wins; with no doi-typed entry the initial
empty string survives; a doi-typed entry with no text yields Python
None. -/
def lastDoi (entries : List (Option String × Option String)) : Option String :=
  match (entries.filter (fun q => q.1 = some "doi")).getLast? with
  | none => some ""
  | some q => q.2

/-- The root element of a fetched batch, as efetch returns it. -/
def mkRoot (l : List Element) : Element :=
  mkEl "PubmedArticleSet" [] none l

/-- One loop step on an empty page: the loop returns the accumulator after
one more request. -/
lemma get_pmids_loop_succ_empty (server : Nat → ESearchBody) (P fuel retstart : Nat)
    (acc : List String) (calls : Nat) (h : bodyIds (server retstart) = []) :
    get_pmids_loop server P (fuel + 1) retstart acc calls
      = (RunResult.ok acc, calls + 1) := by
  simp [get_pmids_loop, h]

/-- One loop step on a non-empty page whose body carries no usable total
count: the uncaught `KeyError`/`ValueError` surfaces as `exn`. -/
lemma get_pmids_loop_succ_exn (server : Nat → ESearchBody) (P fuel retstart : Nat)
    (acc : List String) (calls : Nat) (res : ESearchResult)
    (hres : (server retstart).esearchresult = some res)
    (hids : ¬ bodyIds (server retstart) = [])
    (hcnt : res.count = none) :
    get_pmids_loop server P (fuel + 1) retstart acc calls
      = (RunResult.exn, calls + 1) := by
  simp [get_pmids_loop, hids, hres, hcnt]

/-- One loop step on a non-empty page after which the advanced offset covers
the reported count: the loop returns the extended accumulator. -/
lemma get_pmids_loop_succ_last (server : Nat → ESearchBody) (P fuel retstart : Nat)
    (acc : List String) (calls : Nat) (res : ESearchResult) (cnt : Int)
    (hres : (server retstart).esearchresult = some res)
    (hids : ¬ bodyIds (server retstart) = [])
    (hcnt : res.count = some cnt)
    (hge : cnt ≤ ((retstart + P : Nat) : Int)) :
    get_pmids_loop server P (fuel + 1) retstart acc calls
      = (RunResult.ok (acc ++ bodyIds (server retstart)), calls + 1) := by
  have hge' : cnt ≤ (retstart : Int) + (P : Int) := by push_cast at hge ⊢; omega
  simp [get_pmids_loop, hids, hres, hcnt, hge']

/-- One loop step on a non-empty page with more pages still to fetch: the
loop recurses with advanced offset and extended accumulator. -/
lemma get_pmids_loop_succ_cont (server : Nat → ESearchBody) (P fuel retstart : Nat)
    (acc : List String) (calls : Nat) (res : ESearchResult) (cnt : Int)
    (hres : (server retstart).esearchresult = some res)
    (hids : ¬ bodyIds (server retstart) = [])
    (hcnt : res.count = some cnt)
    (hlt : ((retstart + P : Nat) : Int) < cnt) :
    get_pmids_loop server P (fuel + 1) retstart acc calls
      = get_pmids_loop server P fuel (retstart + P)
          (acc ++ bodyIds (server retstart)) (calls + 1) := by
  have hlt' : ¬ cnt ≤ (retstart : Int) + (P : Int) := by push_cast at hlt ⊢; omega
  simp [get_pmids_loop, hids, hres, hcnt, hlt']

lemma simServer_esearchresult (L : List String) (P retstart : Nat) :
    (simServer L P retstart).esearchresult
      = some { idlist := some ((L.drop retstart).take P)
               count := some (L.length : Int) } := rfl

lemma bodyIds_simServer (L : List String) (P retstart : Nat) :
    bodyIds (simServer L P retstart) = (L.drop retstart).take P := rfl

lemma take_drop_ne_nil (L : List String) (P retstart : Nat) (hP : 1 ≤ P)
    (hin : retstart < L.length) : ¬ (L.drop retstart).take P = [] := by
  intro h
  have h0 : ((L.drop retstart).take P).length = 0 := by rw [h]; rfl
  simp only [List.length_take, List.length_drop] at h0
  omega

/-- Loop invariant for the simulated endpoint: with enough fuel, starting at
offset `retstart` with accumulator `acc`, the loop returns `acc` followed by
the not-yet-visited suffix of `L`. -/
lemma get_pmids_loop_sim_fst (L : List String) (P : Nat) (hP : 1 ≤ P) :
    ∀ fuel retstart acc calls, 1 ≤ fuel → L.length < retstart + fuel →
      (get_pmids_loop (simServer L P) P fuel retstart acc calls).1
        = RunResult.ok (acc ++ L.drop retstart) := by
  intro fuel
  induction fuel with
  | zero => intro retstart acc calls h1 _; omega
  | succ f ih =>
    intro retstart acc calls _ hlen
    by_cases hin : retstart < L.length
    · have hids := take_drop_ne_nil L P retstart hP hin
      rw [← bodyIds_simServer L P retstart] at hids
      by_cases hend : L.length ≤ retstart + P
      · rw [get_pmids_loop_succ_last (simServer L P) P f retstart acc calls _
          (L.length : Int) (simServer_esearchresult L P retstart) hids rfl
          (by exact_mod_cast hend)]
        rw [bodyIds_simServer]
        have htake : (L.drop retstart).take P = L.drop retstart := by
          apply List.take_of_length_le
          simp only [List.length_drop]
          omega
        rw [htake]
      · rw [get_pmids_loop_succ_cont (simServer L P) P f retstart acc calls _
          (L.length : Int) (simServer_esearchresult L P retstart) hids rfl
          (by exact_mod_cast Nat.lt_of_not_le (fun hc => hend hc))]
        rw [ih (retstart + P) (acc ++ bodyIds (simServer L P retstart))
          (calls + 1) (by omega) (by omega)]
        rw [bodyIds_simServer, List.append_assoc, List.drop_take_append_drop]
    · have hdrop : L.drop retstart = [] := by
        apply List.drop_eq_nil_iff.mpr
        omega
      have hids : bodyIds (simServer L P retstart) = [] := by
        rw [bodyIds_simServer, hdrop, List.take_nil]
      rw [get_pmids_loop_succ_empty (simServer L P) P f retstart acc calls hids,
        hdrop, List.append_nil]

/-- Loop invariant for the request count on the simulated endpoint: from an
offset strictly inside `L`, the loop issues exactly
`ceil((L.length - retstart) / P)` further requests. -/
lemma get_pmids_loop_sim_snd (L : List String) (P : Nat) (hP : 1 ≤ P) :
    ∀ fuel retstart acc calls, 1 ≤ fuel → L.length < retstart + fuel →
      retstart < L.length →
      (get_pmids_loop (simServer L P) P fuel retstart acc calls).2
        = calls + (L.length - retstart + P - 1) / P := by
  intro fuel
  induction fuel with
  | zero => intro retstart acc calls h1 _ _; omega
  | succ f ih =>
    intro retstart acc calls _ hlen hin
    have hids := take_drop_ne_nil L P retstart hP hin
    rw [← bodyIds_simServer L P retstart] at hids
    by_cases hend : L.length ≤ retstart + P
    · rw [get_pmids_loop_succ_last (simServer L P) P f retstart acc calls _
        (L.length : Int) (simServer_esearchresult L P retstart) hids rfl
        (by exact_mod_cast hend)]
      have hdiv : (L.length - retstart + P - 1) / P = 1 := by
        apply Nat.div_eq_of_lt_le
        · omega
        · omega
      rw [hdiv]
    · rw [get_pmids_loop_succ_cont (simServer L P) P f retstart acc calls _
        (L.length : Int) (simServer_esearchresult L P retstart) hids rfl
        (by exact_mod_cast Nat.lt_of_not_le (fun hc => hend hc))]
      rw [ih (retstart + P) (acc ++ bodyIds (simServer L P retstart))
        (calls + 1) (by omega) (by omega) (by omega)]
      have ha : L.length - (retstart + P) + P - 1 = L.length - retstart - 1 := by
        omega
      have hb : L.length - retstart + P - 1 = (L.length - retstart - 1) + P := by
        omega
      rw [ha, hb, Nat.add_div_right _ (by omega : 0 < P)]
      omega

/-- C1: against a simulated search endpoint holding the identifier list `L`
and serving it in pages of 200, `get_pmids` returns exactly `L` — the
concatenation of the pages in order, of length `N = L.length`, with nothing
dropped and no duplicate introduced, for every `N` (in particular the
boundary values 0, 1, 199, 200, 201, 401). -/
theorem C1_pagination_completeness (L : List String) (fuel : Nat)
    (hfuel : L.length < fuel) :
    (get_pmids (simServer L 200) fuel).1 = RunResult.ok L := by
  have h := get_pmids_loop_sim_fst L 200 (by omega) fuel 0 [] 0 (by omega)
    (by omega)
  simpa [get_pmids] using h

/-- Witness for C1 at the boundary value N = 401 (three pages: 200 + 200 + 1). -/
theorem C1_pagination_completeness_witness :
    (get_pmids (simServer (sampleIds 401) 200) 402).1
      = RunResult.ok (sampleIds 401) :=
  C1_pagination_completeness (sampleIds 401) 402 (by simp [sampleIds])

/-- C2 counterexample: with a true total `T = 0` the Discoverer still issues
one page request, while `ceil(T / P) = 0`; the request count is neither
exactly `ceil(T / P)` nor fewer. -/
theorem C2_counterexample :
    ¬ (get_pmids (simServer ([] : List String) 200) 5).2
        ≤ (List.length ([] : List String) + 200 - 1) / 200 := by decide

/-- C2 (amended): against a simulated endpoint with true total
`T = L.length` and page size `P ≥ 1`, the number of page requests issued is
`max 1 (ceil(T / P))`: exactly `ceil(T / P)` when `T ≥ 1`, and one request
when `T = 0` (the loop always issues a first request, whose empty page or
offset-vs-count check then ends the loop). -/
theorem C2_request_count (L : List String) (P fuel : Nat) (hP : 1 ≤ P)
    (hfuel : L.length < fuel) :
    (get_pmids_loop (simServer L P) P fuel 0 [] 0).2
      = max 1 ((L.length + P - 1) / P) := by
  by_cases hL : L.length = 0
  · obtain ⟨f, rfl⟩ : ∃ f, fuel = f + 1 := ⟨fuel - 1, by omega⟩
    have hids : bodyIds (simServer L P 0) = [] := by
      rw [bodyIds_simServer]
      have : L = [] := List.length_eq_zero.mp hL
      simp [this]
    rw [get_pmids_loop_succ_empty (simServer L P) P f 0 [] 0 hids]
    have : (L.length + P - 1) / P = 0 := by
      apply Nat.div_eq_of_lt
      omega
    simp [this]
  · rw [get_pmids_loop_sim_snd L P hP fuel 0 [] 0 (by omega) (by omega)
      (by omega)]
    have h1 : 1 ≤ (L.length + P - 1) / P := by
      rw [Nat.one_le_div_iff (by omega)]
      omega
    simp
    omega

/-- Witness for C2 (amended) at T = 401, P = 200: exactly 3 page requests. -/
theorem C2_request_count_witness :
    (get_pmids_loop (simServer (sampleIds 401) 200) 200 402 0 [] 0).2
      = max 1 ((List.length (sampleIds 401) + 200 - 1) / 200) :=
  C2_request_count (sampleIds 401) 200 402 (by omega) (by simp [sampleIds])

/-- C3 counterexample: a successful response whose body has a non-empty
identifier list but no total count makes `get_pmids` raise an uncaught
exception (`KeyError` on `data["esearchresult"]["count"]`) instead of
returning the identifiers collected so far (here `[]`). -/
theorem C3_counterexample :
    (get_pmids noCountServer 5).1 = RunResult.exn ∧
      (get_pmids noCountServer 5).1 ≠ RunResult.ok [] := by decide

/-- C3 (amended): a successful response missing the result envelope or the
identifier list (or carrying an empty list) is treated as an empty page and
`get_pmids` returns the identifiers collected so far; but a response whose
identifier list is non-empty and whose total count is missing or
unparseable raises an uncaught exception. -/
theorem C3_graceful_degradation :
    (∀ (server : Nat → ESearchBody) (fuel retstart calls : Nat)
        (acc : List String), bodyIds (server retstart) = [] →
        get_pmids_loop server 200 (fuel + 1) retstart acc calls
          = (RunResult.ok acc, calls + 1)) ∧
    (∀ (server : Nat → ESearchBody) (fuel retstart calls : Nat)
        (acc : List String) (res : ESearchResult),
        (server retstart).esearchresult = some res →
        ¬ bodyIds (server retstart) = [] → res.count = none →
        get_pmids_loop server 200 (fuel + 1) retstart acc calls
          = (RunResult.exn, calls + 1)) := by
  constructor
  · intro server fuel retstart calls acc h
    exact get_pmids_loop_succ_empty server 200 fuel retstart acc calls h
  · intro server fuel retstart calls acc res hres hids hcnt
    exact get_pmids_loop_succ_exn server 200 fuel retstart acc calls res
      hres hids hcnt

/-- Witness for C3 (amended): a body with no result envelope ends the loop
returning the accumulator; the no-count body raises. -/
theorem C3_graceful_degradation_witness :
    get_pmids_loop (fun _ => { esearchresult := none }) 200 1 0 ["a"] 3
      = (RunResult.ok ["a"], 4) ∧
    get_pmids_loop noCountServer 200 1 0 [] 0 = (RunResult.exn, 1) :=
  ⟨C3_graceful_degradation.1 (fun _ => { esearchresult := none }) 0 0 3 ["a"]
      rfl,
   C3_graceful_degradation.2 noCountServer 0 0 0 []
      { idlist := some ["1"], count := none } rfl (by decide) rfl⟩

@[simp] lemma descendantsForest_nil : descendantsForest ElementForest.nil = [] :=
  rfl

@[simp] lemma descendantsForest_cons (t : String) (a : List (String × String))
    (x : Option String) (c rest : ElementForest) :
    descendantsForest (ElementForest.cons (Element.mk t a x c) rest)
      = Element.mk t a x c :: (descendantsForest c ++ descendantsForest rest) :=
  rfl

@[simp] lemma forestOfList_nil : forestOfList [] = ElementForest.nil := rfl

@[simp] lemma forestOfList_cons (e : Element) (rest : List Element) :
    forestOfList (e :: rest) = ElementForest.cons e (forestOfList rest) := rfl

@[simp] lemma toList_forestOfList (l : List Element) :
    (forestOfList l).toList = l := by
  induction l with
  | nil => rfl
  | cons e rest ih => simp [forestOfList, ElementForest.toList, ih]

lemma insert_article_of_mem (store : List Row) (data : Row)
    (h : ∃ row ∈ store, row.pmid = data.pmid) :
    insert_article store data = store := by
  simp only [insert_article, if_pos h]

lemma mem_pmid_insert_article (store : List Row) (data : Row) :
    ∃ row ∈ insert_article store data, row.pmid = data.pmid := by
  by_cases h : ∃ row ∈ store, row.pmid = data.pmid
  · rw [insert_article_of_mem store data h]
    exact h
  · refine ⟨data, ?_, rfl⟩
    simp [insert_article, h]

lemma insert_article_mono (store : List Row) (data row : Row)
    (h : row ∈ store) : row ∈ insert_article store data := by
  unfold insert_article
  split
  · exact h
  · exact List.mem_append_left _ h

lemma mem_foldl_insert (l : List Row) :
    ∀ (s : List Row) (row : Row), row ∈ s →
      row ∈ l.foldl insert_article s := by
  induction l with
  | nil => intro s row h; exact h
  | cons a t ih =>
    intro s row h
    exact ih _ _ (insert_article_mono s a row h)

lemma pmid_present_after_foldl (l : List Row) :
    ∀ (s : List Row) (r : Row), r ∈ l →
      ∃ row ∈ l.foldl insert_article s, row.pmid = r.pmid := by
  induction l with
  | nil => intro s r h; cases h
  | cons a t ih =>
    intro s r h
    rcases List.mem_cons.mp h with h | h
    · subst h
      obtain ⟨row, hrow, hp⟩ := mem_pmid_insert_article s r
      exact ⟨row, mem_foldl_insert t (insert_article s r) row hrow, hp⟩
    · exact ih (insert_article s a) r h

lemma foldl_insert_of_all_present (l : List Row) :
    ∀ s : List Row, (∀ r ∈ l, ∃ row ∈ s, row.pmid = r.pmid) →
      l.foldl insert_article s = s := by
  induction l with
  | nil => intro s _; rfl
  | cons a t ih =>
    intro s h
    rw [List.foldl_cons, insert_article_of_mem s a (h a (by simp))]
    exact ih s (fun r hr => h r (by simp [hr]))

lemma parse_articles_eq_foldl (root : Element) (s : List Row) :
    parse_articles root s
      = ((findallDescTag root "PubmedArticle").map parseArticle).foldl
          insert_article s := by
  rw [parse_articles, List.foldl_map]

lemma run_pipeline_eq_foldl (batches : List Element) :
    ∀ s : List Row,
      run_pipeline batches s = (batchRows batches).foldl insert_article s := by
  induction batches with
  | nil => intro s; rfl
  | cons root t ih =>
    intro s
    have h1 : run_pipeline (root :: t) s = run_pipeline t (parse_articles root s) :=
      rfl
    have h2 : batchRows (root :: t)
        = (findallDescTag root "PubmedArticle").map parseArticle ++ batchRows t := by
      simp [batchRows]
    rw [h1, ih (parse_articles root s), h2, List.foldl_append,
      parse_articles_eq_foldl]

/-- C4: insertion of an identifier already present in the store is a no-op
that leaves every existing row unchanged, and running the full pipeline
twice over the same fetched batches leaves the store exactly as one run
does. -/
theorem C4_idempotent_store :
    (∀ (store : List Row) (data : Row),
        (∃ row ∈ store, row.pmid = data.pmid) →
        insert_article store data = store) ∧
    (∀ (batches : List Element) (store : List Row),
        run_pipeline batches (run_pipeline batches store)
          = run_pipeline batches store) := by
  constructor
  · exact insert_article_of_mem
  · intro batches store
    rw [run_pipeline_eq_foldl batches store,
      run_pipeline_eq_foldl batches ((batchRows batches).foldl insert_article store)]
    exact foldl_insert_of_all_present (batchRows batches) _
      (fun r hr => pmid_present_after_foldl (batchRows batches) store r hr)

/-- Witness for C4: re-inserting a row with an already-present pmid but
different fields leaves the store unchanged. -/
theorem C4_idempotent_store_witness :
    insert_article [sampleRow (some "1")]
        { sampleRow (some "1") with title := "other" }
      = [sampleRow (some "1")] :=
  C4_idempotent_store.1 [sampleRow (some "1")]
    { sampleRow (some "1") with title := "other" }
    ⟨sampleRow (some "1"), by decide, rfl⟩

lemma extract_doi_of_no_doi (article : Element)
    (h : ∀ el ∈ findallDescTag article "ArticleId",
      ¬ attrGet el "IdType" = some "doi") :
    extract_doi article = some "" := by
  rw [extract_doi]
  generalize findallDescTag article "ArticleId" = l at h
  induction l with
  | nil => rfl
  | cons a t ih =>
    rw [List.foldl_cons]
    have ha : doiStep (some "") a = some "" := by
      simp [doiStep, h a (by simp)]
    rw [ha]
    exact ih (fun el hel => h el (by simp [hel]))

/-- C5: for any record element, each of the 13 optional fields defaults to
the empty string when its node (or, for the DOI, its doi-typed entry) is
absent; extraction is total, so no error is possible.  The 13 implications
hold independently of each other. -/
theorem C5_field_defaults (article : Element) :
    (findallPath3 article "JournalIssue" "PubDate" "Year" = [] →
      (parseArticle article).publication_year = "") ∧
    (findallPath2 article "PubDate" "MedlineDate" = [] →
      (parseArticle article).publication_date = "") ∧
    (findallDescTag article "Author" = [] →
      (parseArticle article).first_author = "") ∧
    (findallDescTag article "Author" = [] →
      (parseArticle article).all_authors = "") ∧
    (findallDescTag article "ArticleTitle" = [] →
      (parseArticle article).title = "") ∧
    (findallPath2 article "Journal" "ISSN" = [] →
      (parseArticle article).issn = "") ∧
    ((∀ el ∈ findallDescTag article "ArticleId",
        ¬ attrGet el "IdType" = some "doi") →
      (parseArticle article).doi = some "") ∧
    (findallPath2 article "Pagination" "MedlinePgn" = [] →
      (parseArticle article).pages = "") ∧
    (findallPath2 article "JournalIssue" "Issue" = [] →
      (parseArticle article).issue = "") ∧
    (findallPath2 article "JournalIssue" "Volume" = [] →
      (parseArticle article).volume = "") ∧
    (findallPath2 article "Journal" "Title" = [] →
      (parseArticle article).journal = "") ∧
    (findallPath2 article "Journal" "ISOAbbreviation" = [] →
      (parseArticle article).journal_abbreviation = "") ∧
    (findallPath2 article "Abstract" "AbstractText" = [] →
      (parseArticle article).abstract = "") := by
  refine ⟨?_, ?_, ?_, ?_, ?_, ?_, ?_, ?_, ?_, ?_, ?_, ?_, ?_⟩
  · intro h
    simp [parseArticle, extract_pub_year, h, firstText]
  · intro h
    simp [parseArticle, extract_pub_date, h, firstText]
  · intro h
    simp [parseArticle, extract_authors, h]
  · intro h
    simp [parseArticle, extract_authors, h]
    rfl
  · intro h
    simp [parseArticle, extract_title, h, firstText]
  · intro h
    simp [parseArticle, extract_issn, h, firstText]
  · intro h
    simpa [parseArticle] using extract_doi_of_no_doi article h
  · intro h
    simp [parseArticle, extract_pages, h, firstText]
  · intro h
    simp [parseArticle, extract_issue, h, firstText]
  · intro h
    simp [parseArticle, extract_volume, h, firstText]
  · intro h
    simp [parseArticle, extract_journal, h, firstText]
  · intro h
    simp [parseArticle, extract_journal_abbr, h, firstText]
  · intro h
    simp [parseArticle, extract_abstract, h]
    rfl

/-- Witness for C5: a record element with no optional nodes at all parses
to a row whose 13 optional fields are all the empty-string default. -/
theorem C5_field_defaults_witness :
    (parseArticle emptyArticle).publication_year = "" ∧
    (parseArticle emptyArticle).publication_date = "" ∧
    (parseArticle emptyArticle).first_author = "" ∧
    (parseArticle emptyArticle).all_authors = "" ∧
    (parseArticle emptyArticle).title = "" ∧
    (parseArticle emptyArticle).issn = "" ∧
    (parseArticle emptyArticle).doi = some "" ∧
    (parseArticle emptyArticle).pages = "" ∧
    (parseArticle emptyArticle).issue = "" ∧
    (parseArticle emptyArticle).volume = "" ∧
    (parseArticle emptyArticle).journal = "" ∧
    (parseArticle emptyArticle).journal_abbreviation = "" ∧
    (parseArticle emptyArticle).abstract = "" :=
  ⟨(C5_field_defaults emptyArticle).1 (by rfl),
   (C5_field_defaults emptyArticle).2.1 (by rfl),
   (C5_field_defaults emptyArticle).2.2.1 (by rfl),
   (C5_field_defaults emptyArticle).2.2.2.1 (by rfl),
   (C5_field_defaults emptyArticle).2.2.2.2.1 (by rfl),
   (C5_field_defaults emptyArticle).2.2.2.2.2.1 (by rfl),
   (C5_field_defaults emptyArticle).2.2.2.2.2.2.1 (by decide),
   (C5_field_defaults emptyArticle).2.2.2.2.2.2.2.1 (by rfl),
   (C5_field_defaults emptyArticle).2.2.2.2.2.2.2.2.1 (by rfl),
   (C5_field_defaults emptyArticle).2.2.2.2.2.2.2.2.2.1 (by rfl),
   (C5_field_defaults emptyArticle).2.2.2.2.2.2.2.2.2.2.1 (by rfl),
   (C5_field_defaults emptyArticle).2.2.2.2.2.2.2.2.2.2.2.1 (by rfl),
   (C5_field_defaults emptyArticle).2.2.2.2.2.2.2.2.2.2.2.2 (by rfl)⟩

lemma descendants_filter_ofList (q : Element → Bool) :
    ∀ l : List Element,
      (descendantsForest (forestOfList l)).filter q
        = l.flatMap
            (fun e => List.filter q (e :: descendantsForest e.children)) := by
  intro l
  induction l with
  | nil => rfl
  | cons e rest ih =>
    cases e with
    | mk t a x c =>
      have h1 : descendantsForest (forestOfList (Element.mk t a x c :: rest))
          = (Element.mk t a x c :: descendantsForest c)
              ++ descendantsForest (forestOfList rest) := rfl
      rw [h1, List.filter_append, ih]
      rfl

/-- When every constructed element keeps only itself under the filter, the
filtered preorder walk is the constructed list itself. -/
lemma flatMap_filter_self {α : Type} (f : α → Element) (q : Element → Bool)
    (hf : ∀ p : α,
      List.filter q (f p :: descendantsForest (f p).children) = [f p]) :
    ∀ l : List α,
      (l.map f).flatMap
          (fun e => List.filter q (e :: descendantsForest e.children))
        = l.map f := by
  intro l
  induction l with
  | nil => rfl
  | cons p rest ih =>
    rw [List.map_cons, List.flatMap_cons, hf p, ih]
    rfl

lemma findallDescTag_mkAuthorArticle
    (parts : List (Option String × Option String)) :
    findallDescTag (mkAuthorArticle parts) "Author" = parts.map mkAuthor := by
  have h : findallDescTag (mkAuthorArticle parts) "Author"
      = (descendantsForest (forestOfList (parts.map mkAuthor))).filter
          (fun x => x.tag = "Author") := rfl
  rw [h, descendants_filter_ofList]
  apply flatMap_filter_self
  intro p
  obtain ⟨f, l⟩ := p
  cases f <;> cases l <;> rfl

lemma authorName_mkAuthor (p : Option String × Option String) :
    authorName (mkAuthor p) = joinName p := by
  obtain ⟨f, l⟩ := p
  cases f <;> cases l <;> rfl

lemma extract_authors_mkAuthorArticle
    (parts : List (Option String × Option String)) :
    extract_authors (mkAuthorArticle parts)
      = (parts.map joinName).filter (fun n => ¬ n = "") := by
  rw [extract_authors, findallDescTag_mkAuthorArticle, List.map_map]
  congr 1
  apply List.map_congr_left
  intro p _
  exact authorName_mkAuthor p

/-- C6: the author fields of a parsed record: each entry contributes its
forename and lastname joined by one space (absent or empty parts skipped),
entries keep source order, the first author is the head of the sequence
(empty string when there is none), and the all-authors field joins the
sequence with a comma and a space.  Stated for records all of whose entries
produce a non-empty name, as in the cited example. -/
theorem C6_author_joining (parts : List (Option String × Option String))
    (h : ∀ p ∈ parts, ¬ joinName p = "") :
    extract_authors (mkAuthorArticle parts) = parts.map joinName ∧
    (parseArticle (mkAuthorArticle parts)).first_author
      = (parts.map joinName).headD "" ∧
    (parseArticle (mkAuthorArticle parts)).all_authors
      = String.intercalate ", " (parts.map joinName) := by
  have hall : extract_authors (mkAuthorArticle parts) = parts.map joinName := by
    rw [extract_authors_mkAuthorArticle]
    apply List.filter_eq_self.mpr
    intro n hn
    obtain ⟨p, hp, rfl⟩ := List.mem_map.mp hn
    simpa using h p hp
  refine ⟨hall, ?_, ?_⟩
  · show (extract_authors (mkAuthorArticle parts)).headD "" = _
    rw [hall]
  · show String.intercalate ", " (extract_authors (mkAuthorArticle parts)) = _
    rw [hall]

/-- Witness for C6 at the documented example: authors
(Jane, Doe) and (empty forename, Smith). -/
theorem C6_author_joining_witness :
    extract_authors
        (mkAuthorArticle [(some "Jane", some "Doe"), (some "", some "Smith")])
      = ["Jane Doe", "Smith"] ∧
    (parseArticle
        (mkAuthorArticle
          [(some "Jane", some "Doe"), (some "", some "Smith")])).first_author
      = "Jane Doe" ∧
    (parseArticle
        (mkAuthorArticle
          [(some "Jane", some "Doe"), (some "", some "Smith")])).all_authors
      = "Jane Doe, Smith" :=
  C6_author_joining [(some "Jane", some "Doe"), (some "", some "Smith")]
    (by decide)

/-- C10: an author entry whose joined name is empty contributes nothing:
the author sequence is the non-empty joined names in source order, the
first author is the first entry with at least one name part, and the
all-authors field has no empty entries or dangling separators.  The closing
conjuncts instantiate this with a leading fully-absent author entry. -/
theorem C10_empty_author_entries_skipped
    (parts : List (Option String × Option String)) :
    extract_authors (mkAuthorArticle parts)
      = (parts.map joinName).filter (fun n => ¬ n = "") ∧
    (parseArticle (mkAuthorArticle parts)).first_author
      = ((parts.map joinName).filter (fun n => ¬ n = "")).headD "" ∧
    (parseArticle (mkAuthorArticle parts)).all_authors
      = String.intercalate ", "
          ((parts.map joinName).filter (fun n => ¬ n = "")) ∧
    (parseArticle
        (mkAuthorArticle
          [(none, none), (some "Jane", some "Doe"),
           (none, some "Smith")])).first_author = "Jane Doe" ∧
    (parseArticle
        (mkAuthorArticle
          [(none, none), (some "Jane", some "Doe"),
           (none, some "Smith")])).all_authors = "Jane Doe, Smith" := by
  refine ⟨extract_authors_mkAuthorArticle parts, ?_, ?_, by decide, by decide⟩
  · show (extract_authors (mkAuthorArticle parts)).headD "" = _
    rw [extract_authors_mkAuthorArticle]
  · show String.intercalate ", " (extract_authors (mkAuthorArticle parts)) = _
    rw [extract_authors_mkAuthorArticle]

lemma foldl_doiStep_last (l : List Element) :
    ∀ init : Option String,
      l.foldl doiStep init
        = match (l.filter (fun el => attrGet el "IdType" = some "doi")).getLast? with
          | none => init
          | some el => el.text := by
  induction l with
  | nil => intro init; rfl
  | cons e t ih =>
    intro init
    rw [List.foldl_cons, ih (doiStep init e)]
    by_cases h : attrGet e "IdType" = some "doi"
    · rw [List.filter_cons_of_pos (by simpa using h)]
      cases hft : t.filter (fun el => decide (attrGet el "IdType" = some "doi")) with
      | nil => simp [hft, doiStep, h]
      | cons b bt =>
        rw [List.getLast?_cons_cons]
        cases hgl : (b :: bt).getLast? with
        | none => simp at hgl
        | some el => simp [hgl]
    · rw [List.filter_cons_of_neg (by simpa using h)]
      simp [doiStep, h]

lemma findallDescTag_mkIdArticle
    (entries : List (Option String × Option String)) :
    findallDescTag (mkIdArticle entries) "ArticleId"
      = entries.map mkArticleId := by
  have h : findallDescTag (mkIdArticle entries) "ArticleId"
      = (descendantsForest (forestOfList (entries.map mkArticleId))).filter
          (fun x => x.tag = "ArticleId") := rfl
  rw [h, descendants_filter_ofList]
  apply flatMap_filter_self
  intro q
  obtain ⟨i, x⟩ := q
  cases i <;> rfl

lemma attrGet_mkArticleId (q : Option String × Option String) :
    attrGet (mkArticleId q) "IdType" = q.1 := by
  obtain ⟨i, x⟩ := q
  cases i <;> rfl

/-- C9: among the external-identifier entries, the doi extraction keeps the
text of the LAST entry tagged doi (not the first), and an entry tagged doi
with no text leaves the field as Python None rather than the empty string.
The closing conjuncts instantiate both points with two doi-typed
entries. -/
theorem C9_doi_last_entry_wins
    (entries : List (Option String × Option String)) :
    (parseArticle (mkIdArticle entries)).doi = lastDoi entries ∧
    (parseArticle
        (mkIdArticle
          [(some "doi", some "10.1/a"), (some "doi", some "10.2/b")])).doi
      = some "10.2/b" ∧
    (parseArticle
        (mkIdArticle
          [(some "doi", some "10.1/a"), (some "doi", none)])).doi
      = none := by
  refine ⟨?_, by decide, by decide⟩
  show extract_doi (mkIdArticle entries) = lastDoi entries
  rw [extract_doi, findallDescTag_mkIdArticle, foldl_doiStep_last]
  have hfe : (entries.map mkArticleId).filter
        (fun el => decide (attrGet el "IdType" = some "doi"))
      = (entries.filter (fun q => decide (q.1 = some "doi"))).map mkArticleId := by
    rw [List.filter_map]
    congr 1
    apply List.filter_congr
    intro q _
    simp [Function.comp, attrGet_mkArticleId]
  rw [hfe, List.getLast?_map, lastDoi]
  cases (entries.filter (fun q => decide (q.1 = some "doi"))).getLast? with
  | none => rfl
  | some q =>
    obtain ⟨i, x⟩ := q
    cases i <;> rfl

lemma findallDescTag_mkRoot_single (a : Element)
    (htag : a.tag = "PubmedArticle")
    (hnest : findallDescTag a "PubmedArticle" = []) :
    findallDescTag (mkRoot [a]) "PubmedArticle" = [a] := by
  have h : findallDescTag (mkRoot [a]) "PubmedArticle"
      = List.filter (fun e => e.tag = "PubmedArticle")
          (a :: (a.descendants ++ [])) := by
    cases a with
    | mk t a2 x c => rfl
  have hd : a.descendants.filter (fun e => decide (e.tag = "PubmedArticle")) = [] :=
    hnest
  rw [h, List.append_nil, List.filter_cons, hd]
  simp [htag]

/-- C7: a well-formed record element with no identifier node is still
extracted and handed to the store with a Python-None identifier, rather
than being skipped or raising; on an empty store the row is actually
inserted. -/
theorem C7_missing_pmid_still_loaded (a : Element) (s : List Row)
    (htag : a.tag = "PubmedArticle")
    (hnest : findallDescTag a "PubmedArticle" = [])
    (hpm : findallDescTag a "PMID" = []) :
    (parseArticle a).pmid = none ∧
    parse_articles (mkRoot [a]) s = insert_article s (parseArticle a) ∧
    parse_articles (mkRoot [a]) [] = [parseArticle a] := by
  have hp : (parseArticle a).pmid = none := by
    simp [parseArticle, extract_pmid, hpm, firstText]
  refine ⟨hp, ?_, ?_⟩
  · rw [parse_articles, findallDescTag_mkRoot_single a htag hnest]
    rfl
  · rw [parse_articles, findallDescTag_mkRoot_single a htag hnest]
    simp [insert_article]

/-- Witness for C7: a record element with no nodes at all is parsed and
inserted with a None identifier, alongside an unrelated existing row. -/
theorem C7_missing_pmid_still_loaded_witness :
    (parseArticle emptyArticle).pmid = none ∧
    parse_articles (mkRoot [emptyArticle]) [sampleRow (some "1")]
      = insert_article [sampleRow (some "1")] (parseArticle emptyArticle) ∧
    parse_articles (mkRoot [emptyArticle]) [] = [parseArticle emptyArticle] :=
  C7_missing_pmid_still_loaded emptyArticle [sampleRow (some "1")]
    (by rfl) (by rfl) (by rfl)

lemma chunks200_nil : chunks200 [] = [] := by
  simp [chunks200]

lemma chunks200_cons (a : String) (l : List String) :
    chunks200 (a :: l) = ((a :: l).take 200) :: chunks200 ((a :: l).drop 200) := by
  simp [chunks200]

lemma chunks200_eq_nil_iff (L : List String) : chunks200 L = [] ↔ L = [] := by
  cases L with
  | nil => simp [chunks200_nil]
  | cons a l => simp [chunks200_cons]

lemma mainBatches_cons_form (L : List String) (h : ¬ L = []) :
    mainBatches L = L.take 200 :: mainBatches (L.drop 200) := by
  have hlen : 1 ≤ L.length := List.length_pos.mpr h
  obtain ⟨k, hk⟩ : ∃ k, (L.length + 200 - 1) / 200 = k + 1 :=
    ⟨(L.length + 200 - 1) / 200 - 1, by omega⟩
  have hk2 : ((L.drop 200).length + 200 - 1) / 200 = k := by
    simp only [List.length_drop]
    omega
  simp only [mainBatches, pyRange, hk, hk2, List.range_succ_eq_map]
  simp only [List.map_cons, List.map_map, Nat.zero_mul, List.drop_zero]
  congr 1
  apply List.map_congr_left
  intro j hj
  simp only [Function.comp]
  rw [List.drop_drop]
  have hh : Nat.succ j * 200 = j * 200 + 200 := by omega
  rw [hh, Nat.add_comm (j * 200) 200]

lemma mainBatches_eq_chunks200 :
    ∀ (n : Nat) (L : List String), L.length ≤ n →
      mainBatches L = chunks200 L := by
  intro n
  induction n with
  | zero =>
    intro L h
    have hL : L = [] := by
      cases L with
      | nil => rfl
      | cons a l => simp at h
    subst hL
    rw [chunks200_nil]
    rfl
  | succ n ih =>
    intro L h
    cases L with
    | nil => rw [chunks200_nil]; rfl
    | cons a l =>
      rw [mainBatches_cons_form (a :: l) (by simp), chunks200_cons,
        ih ((a :: l).drop 200) (by simp at h ⊢; omega)]

lemma chunks200_flatten :
    ∀ (n : Nat) (L : List String), L.length ≤ n →
      (chunks200 L).flatten = L := by
  intro n
  induction n with
  | zero =>
    intro L h
    have hL : L = [] := by
      cases L with
      | nil => rfl
      | cons a l => simp at h
    subst hL
    rw [chunks200_nil]
    rfl
  | succ n ih =>
    intro L h
    cases L with
    | nil => rw [chunks200_nil]; rfl
    | cons a l =>
      rw [chunks200_cons, List.flatten_cons,
        ih ((a :: l).drop 200) (by simp at h ⊢; omega),
        List.take_append_drop]

lemma chunks200_mem_bounds :
    ∀ (n : Nat) (L : List String), L.length ≤ n →
      ∀ c ∈ chunks200 L, c.length ≤ 200 ∧ ¬ c = [] := by
  intro n
  induction n with
  | zero =>
    intro L h c hc
    have hL : L = [] := by
      cases L with
      | nil => rfl
      | cons a l => simp at h
    subst hL
    rw [chunks200_nil] at hc
    cases hc
  | succ n ih =>
    intro L h c hc
    cases L with
    | nil =>
      rw [chunks200_nil] at hc
      cases hc
    | cons a l =>
      rw [chunks200_cons] at hc
      rcases List.mem_cons.mp hc with hc | hc
      · subst hc
        constructor
        · simp only [List.length_take]
          omega
        · simp
      · exact ih ((a :: l).drop 200) (by simp at h ⊢; omega) c hc

lemma chunks200_dropLast_len :
    ∀ (n : Nat) (L : List String), L.length ≤ n →
      ∀ c ∈ (chunks200 L).dropLast, c.length = 200 := by
  intro n
  induction n with
  | zero =>
    intro L h c hc
    have hL : L = [] := by
      cases L with
      | nil => rfl
      | cons a l => simp at h
    subst hL
    rw [chunks200_nil] at hc
    cases hc
  | succ n ih =>
    intro L h c hc
    cases L with
    | nil =>
      rw [chunks200_nil] at hc
      cases hc
    | cons a l =>
      rw [chunks200_cons] at hc
      cases hrec : chunks200 ((a :: l).drop 200) with
      | nil =>
        rw [hrec] at hc
        simp at hc
      | cons b bt =>
        rw [hrec, List.dropLast_cons₂] at hc
        rcases List.mem_cons.mp hc with hc | hc
        · subst hc
          have hne : ¬ (a :: l).drop 200 = [] := by
            intro hd
            rw [hd, chunks200_nil] at hrec
            cases hrec
          have hgt : 200 < (a :: l).length := by
            have := List.length_pos.mpr hne
            simp only [List.length_drop] at this
            omega
          simp only [List.length_take]
          omega
        · rw [← hrec] at hc
          exact ih ((a :: l).drop 200) (by simp at h ⊢; omega) c hc

/-- C8: the orchestrator slices the discovered identifier list into
consecutive chunks of size 200 whose concatenation in processing order is
exactly the original list; every chunk before the last has exactly 200
identifiers, and every chunk is non-empty with at most 200. -/
theorem C8_batch_chunking (L : List String) :
    (mainBatches L).flatten = L ∧
    (∀ c ∈ (mainBatches L).dropLast, c.length = 200) ∧
    (∀ c ∈ mainBatches L, c.length ≤ 200 ∧ ¬ c = []) := by
  rw [mainBatches_eq_chunks200 L.length L (le_refl _)]
  exact ⟨chunks200_flatten L.length L (le_refl _),
    chunks200_dropLast_len L.length L (le_refl _),
    chunks200_mem_bounds L.length L (le_refl _)⟩

end RochesterDbGen
